import Mathlib

/-!
Verification of the ai-testing-tool frontend and automation-engine contract.

The definitions below are a shallow embedding of the TypeScript sources under
`src/frontend_server/src` (api.ts, types.ts, CodeLibraryPanel.tsx,
TaskEditDialog.tsx).  Components of the automation engine that exist only
behind the HTTP API (the job registry's status transitions, the report
writer, the selector validator and the decision loop's mode switch) are
modelled from the specification and are marked `Modelled from the spec:` in
their doc comments.
-/

namespace AiTestingTool

/-! ## JavaScript string primitives

`String.prototype.trim` removes leading and trailing JavaScript whitespace.
We model the whitespace class by its common members (ASCII whitespace plus
NBSP and BOM); the trim itself is dropWhile at both ends, exactly as the
JS builtin behaves. -/

/-- Characters removed by `String.prototype.trim`. -/
def jsWhitespace (c : Char) : Bool :=
  c = ' ' || c = '\t' || c = '\n' || c = '\r' || c = '\x0b' ||
  c = '\x0c' || c = ' ' || c = '﻿'

/-- List-level model of `String.prototype.trim`: drop whitespace from the
front, then from the back. -/
def jsTrimList (l : List Char) : List Char :=
  ((l.dropWhile jsWhitespace).reverse.dropWhile jsWhitespace).reverse

/-- `baseUrl.trim()` and friends. -/
def jsTrim (s : String) : String := ⟨jsTrimList s.data⟩

/-! ## api.ts : normaliseBaseUrl -/

/-- First character class of the scheme test `/^[a-zA-Z][a-zA-Z\d+\-.]*:/`. -/
def isSchemeStart (c : Char) : Bool := c.isAlpha

/-- Continuation class `[a-zA-Z\d+\-.]` of the scheme test. -/
def isSchemeChar (c : Char) : Bool :=
  c.isAlpha || c.isDigit || c = '+' || c = '-' || c = '.'

/-- Test of the anchored regex `/^[a-zA-Z][a-zA-Z\d+\-.]*:/` from
`normaliseBaseUrl`.  Because ':' is not in the continuation class, the
regex matches exactly when the maximal run of continuation characters
after the first letter is followed by ':'. -/
def hasSchemeList : List Char → Bool
  | [] => false
  | c :: rest =>
    isSchemeStart c &&
      match rest.dropWhile isSchemeChar with
      | ':' :: _ => true
      | _ => false

/-- The `hasScheme` regex test applied to a string, as in api.ts. -/
def hasScheme (s : String) : Bool := hasSchemeList s.data

/-- api.ts `normaliseBaseUrl`: trim; empty maps to empty; keep inputs that
already carry a URL scheme; otherwise put "http://" in front. -/
def normaliseBaseUrl (baseUrl : String) : String :=
  let trimmed := jsTrim baseUrl
  if trimmed = "" then ""
  else if hasScheme trimmed then trimmed
  else "http://" ++ trimmed

/-! ## api.ts : apiRequest

The axios call is an external effect; we embed its three possible outcomes
(`HttpOutcome`) and the pure mapping `apiRequest` performs on them.  JSON
bodies are modelled by the `Json` inductive; `undefined` response bodies
are `Option.none` (the code applies `?? null` to them).  JavaScript
`String(x)` is modelled on JSON values with numbers taken as integers. -/

/-- JSON value as delivered by axios. -/
inductive Json where
  | null : Json
  | bool (b : Bool) : Json
  | num (n : Int) : Json
  | str (s : String) : Json
  | arr (elems : List Json) : Json
  | obj (fields : List (String × Json)) : Json

/-- JavaScript `String(x)` on a JSON value (numbers modelled as integers,
arrays join their elements with commas, objects print as
"[object Object]"). -/
def jsString : Json → String
  | .null => "null"
  | .bool true => "true"
  | .bool false => "false"
  | .num n => toString n
  | .str s => s
  | .arr elems => String.intercalate "," (elems.map fun e => jsStringShallow e)
  | .obj _ => "[object Object]"
where
  /-- One-level stringification used for array elements. -/
  jsStringShallow : Json → String
    | .null => "null"
    | .bool true => "true"
    | .bool false => "false"
    | .num n => toString n
    | .str s => s
    | .arr _ => ""
    | .obj _ => "[object Object]"

/-- The guard `typeof data === "object" && data !== null && "detail" in data`:
only a JSON object can carry a "detail" member (a parsed array never has
one, and `typeof null` is "object" but the code excludes null). -/
def hasDetail : Json → Bool
  | .obj fields => fields.any fun f => f.1 == "detail"
  | _ => false

/-- Property access `data.detail` on a JSON object. -/
def detailOf : Json → Option Json
  | .obj fields => (fields.lookup "detail")
  | _ => none

/-- Result record returned by `apiRequest` (types.ts `ApiResult`).  The
`data` field already has `?? null` applied, so it is a `Json`. -/
structure ApiResult where
  ok : Bool
  status : Nat
  data : Json
  error : Option String

/-- Outcome of the axios request inside `apiRequest`: a 2xx response, an
`AxiosError` carrying a response, or a failure without any response
(message is `none` when the thrown value is not an `Error`). -/
inductive HttpOutcome where
  | success (status : Nat) (data : Option Json)
  | httpError (status : Nat) (data : Option Json) (message : String)
  | networkFailure (message : Option String)

/-- api.ts `apiRequest`, as a pure mapping from the axios outcome to the
`ApiResult` it resolves with.  Every branch returns; nothing escapes. -/
def apiRequest : HttpOutcome → ApiResult
  | .success st d =>
    { ok := true, status := st, data := d.getD .null, error := none }
  | .httpError st d msg =>
    let detail :=
      match d with
      | some body =>
        if hasDetail body then jsString ((detailOf body).getD .null) else msg
      | none => msg
    { ok := false, status := st, data := d.getD .null, error := some detail }
  | .networkFailure msg =>
    { ok := false, status := 0, data := .null,
      error := some (msg.getD "Unknown network error") }

/-! ### Trim lemmas -/

/-- Head test used to state that a list has no leading whitespace. -/
def headWsFree (l : List Char) : Bool :=
  match l.head? with
  | some c => !jsWhitespace c
  | none => true

theorem dropWhile_headWsFree (l : List Char) :
    headWsFree (l.dropWhile jsWhitespace) = true := by
  induction l with
  | nil => rfl
  | cons c rest ih =>
    rw [List.dropWhile_cons]
    cases h : jsWhitespace c with
    | true => simpa [h] using ih
    | false => simp [headWsFree, h]

theorem dropWhile_id_of_headWsFree (l : List Char)
    (h : headWsFree l = true) : l.dropWhile jsWhitespace = l := by
  cases l with
  | nil => rfl
  | cons c rest =>
    simp only [headWsFree, List.head?] at h
    have hc : jsWhitespace c = false := by
      revert h; cases jsWhitespace c <;> simp
    rw [List.dropWhile_cons]
    simp [hc]

theorem dropWhile_append_decomp (p : Char → Bool) (l : List Char) :
    ∃ pre, l = pre ++ l.dropWhile p := by
  induction l with
  | nil => exact ⟨[], rfl⟩
  | cons c rest ih =>
    rw [List.dropWhile_cons]
    by_cases h : p c = true
    · obtain ⟨pre, hpre⟩ := ih
      exact ⟨c :: pre, by simp [h, ← hpre]⟩
    · exact ⟨[], by simp [h]⟩

/-- The trimmed list has no leading whitespace. -/
theorem jsTrimList_headWsFree (l : List Char) :
    headWsFree (jsTrimList l) = true := by
  unfold jsTrimList
  set A := l.dropWhile jsWhitespace with hA
  set B := A.reverse.dropWhile jsWhitespace with hB
  have hBfree : headWsFree B = true := dropWhile_headWsFree A.reverse
  obtain ⟨pre, hpre⟩ := dropWhile_append_decomp jsWhitespace A.reverse
  rw [← hB] at hpre
  rcases hBe : B with _ | ⟨b, bs⟩
  · rfl
  · have hlast : B.reverse.head? = B.getLast? := List.head?_reverse B
    have hBgl : B.getLast? = A.reverse.getLast? := by
      rw [hpre]
      exact (List.getLast?_append_of_ne_nil pre (by simp [hBe])).symm
    have hAh : A.reverse.getLast? = A.head? := List.getLast?_reverse A
    have hAfree : headWsFree A = true := dropWhile_headWsFree l
    rw [← hBe]
    unfold headWsFree
    rw [hlast, hBgl, hAh]
    unfold headWsFree at hAfree
    exact hAfree

/-- The trimmed list has no trailing whitespace either (stated through the
reverse). -/
theorem jsTrimList_revWsFree (l : List Char) :
    headWsFree (jsTrimList l).reverse = true := by
  unfold jsTrimList
  rw [List.reverse_reverse]
  exact dropWhile_headWsFree _

/-- A list clean at both ends is left unchanged by trimming. -/
theorem jsTrimList_id (l : List Char) (h1 : headWsFree l = true)
    (h2 : headWsFree l.reverse = true) : jsTrimList l = l := by
  unfold jsTrimList
  rw [dropWhile_id_of_headWsFree l h1, dropWhile_id_of_headWsFree l.reverse h2,
    List.reverse_reverse]

/-- `trim` is idempotent. -/
theorem jsTrimList_idem (l : List Char) :
    jsTrimList (jsTrimList l) = jsTrimList l :=
  jsTrimList_id _ (jsTrimList_headWsFree l) (jsTrimList_revWsFree l)

theorem jsTrim_idem (s : String) : jsTrim (jsTrim s) = jsTrim s := by
  unfold jsTrim
  exact congrArg String.mk (jsTrimList_idem s.data)

theorem mk_eq_empty_iff (l : List Char) : (String.mk l = "") ↔ l = [] := by
  constructor
  · intro h
    have hd := congrArg String.data h
    simpa using hd
  · intro h; rw [h]

theorem headWsFree_append_left (a b : List Char) (ha : a ≠ []) :
    headWsFree (a ++ b) = headWsFree a := by
  cases a with
  | nil => exact absurd rfl ha
  | cons c rest => simp [headWsFree]

theorem hasSchemeList_http (t : List Char) :
    hasSchemeList ('h' :: 't' :: 't' :: 'p' :: ':' :: '/' :: '/' :: t) = true := by
  have h0 : isSchemeStart 'h' = true := rfl
  have h1 : isSchemeChar 't' = true := rfl
  have h2 : isSchemeChar 'p' = true := rfl
  have h3 : isSchemeChar ':' = false := rfl
  simp [hasSchemeList, List.dropWhile_cons, h0, h1, h2, h3]

theorem http_data : "http://".data = ['h', 't', 't', 'p', ':', '/', '/'] := rfl

/-- Prefixing "http://" to a fully trimmed, non-empty string gives a string
that trim leaves unchanged. -/
theorem jsTrim_http_append (s : String) (h : jsTrim s ≠ "") :
    jsTrim ("http://" ++ jsTrim s) = "http://" ++ jsTrim s := by
  have hdata : ("http://" ++ jsTrim s).data = "http://".data ++ jsTrimList s.data :=
    String.data_append _ _
  have hne : jsTrimList s.data ≠ [] := by
    intro hnil
    exact h ((mk_eq_empty_iff _).mpr hnil)
  have h1 : headWsFree (("http://" ++ jsTrim s).data) = true := by
    rw [hdata, headWsFree_append_left _ _ (by rw [http_data]; simp), http_data]
    rfl
  have h2 : headWsFree (("http://" ++ jsTrim s).data).reverse = true := by
    rw [hdata, List.reverse_append,
      headWsFree_append_left _ _ (by simpa using hne)]
    exact jsTrimList_revWsFree s.data
  show String.mk (jsTrimList _) = _
  rw [jsTrimList_id _ h1 h2]

/-- C9: `normaliseBaseUrl` is idempotent; a blank or whitespace-only input
maps to the empty string, an input already starting with a URL scheme is
returned trimmed and otherwise unchanged, and any other input is returned
trimmed with "http://" prepended. -/
theorem normaliseBaseUrl_idem_spec (s : String) :
    normaliseBaseUrl (normaliseBaseUrl s) = normaliseBaseUrl s ∧
    (jsTrim s = "" → normaliseBaseUrl s = "") ∧
    (jsTrim s ≠ "" → hasScheme (jsTrim s) = true →
      normaliseBaseUrl s = jsTrim s) ∧
    (jsTrim s ≠ "" → hasScheme (jsTrim s) = false →
      normaliseBaseUrl s = "http://" ++ jsTrim s) := by
  have hswap : ∀ t : String, normaliseBaseUrl t =
      (if jsTrim t = "" then ""
       else if hasScheme (jsTrim t) then jsTrim t
       else "http://" ++ jsTrim t) := fun t => rfl
  by_cases h1 : jsTrim s = ""
  · have hs : normaliseBaseUrl s = "" := by rw [hswap, if_pos h1]
    refine ⟨?_, fun _ => hs, fun h _ => absurd h1 h, fun h _ => absurd h1 h⟩
    rw [hs, hswap]
    rfl
  · by_cases h2 : hasScheme (jsTrim s) = true
    · have hs : normaliseBaseUrl s = jsTrim s := by
        rw [hswap, if_neg h1, if_pos h2]
      refine ⟨?_, fun he => absurd he h1, fun _ _ => hs, fun _ hf => by
        rw [h2] at hf; exact absurd hf (by simp)⟩
      rw [hs, hswap, jsTrim_idem]
      rw [if_neg h1, if_pos h2]
    · have h2f : hasScheme (jsTrim s) = false := by
        revert h2; cases hasScheme (jsTrim s) <;> simp
      have hs : normaliseBaseUrl s = "http://" ++ jsTrim s := by
        rw [hswap, if_neg h1, if_neg h2]
      refine ⟨?_, fun he => absurd he h1, fun _ ht => by
        rw [ht] at h2f; exact absurd h2f (by simp), fun _ _ => hs⟩
      rw [hs, hswap, jsTrim_http_append s h1]
      have hdne : jsTrim ("http://" ++ jsTrim s) ≠ "" := by
        rw [jsTrim_http_append s h1]
        intro he
        have := congrArg String.data he
        rw [String.data_append, http_data] at this
        simp at this
      rw [jsTrim_http_append s h1] at hdne
      rw [if_neg hdne]
      have hsch : hasScheme ("http://" ++ jsTrim s) = true := by
        show hasSchemeList _ = true
        rw [String.data_append, http_data]
        exact hasSchemeList_http _
      rw [if_pos hsch]

/-- Witness for C9 at the concrete input " example.com ". -/
theorem normaliseBaseUrl_idem_spec_witness :
    normaliseBaseUrl (normaliseBaseUrl " example.com ") =
        normaliseBaseUrl " example.com " ∧
      normaliseBaseUrl " example.com " = "http://" ++ jsTrim " example.com " :=
  ⟨(normaliseBaseUrl_idem_spec " example.com ").1,
   (normaliseBaseUrl_idem_spec " example.com ").2.2.2 (by decide) (by decide)⟩

/-- C8: `apiRequest` always resolves to an `ApiResult` (totality of the
mapping below; no branch escapes): result is ok exactly on a successful
HTTP response, carrying its status and body; an HTTP error response gives
ok=false with that status and, when the body is an object containing a
"detail" member, that member stringified as the error message, otherwise
the error's own message; a failure without a response gives status 0 and
the error's message (or "Unknown network error"). -/
theorem apiRequest_spec :
    (∀ o : HttpOutcome, (apiRequest o).ok = true ↔ ∃ st d, o = .success st d) ∧
    (∀ st d, apiRequest (.success st d) =
      { ok := true, status := st, data := d.getD .null, error := none }) ∧
    (∀ st body msg, hasDetail body = true →
      apiRequest (.httpError st (some body) msg) =
        { ok := false, status := st, data := body,
          error := some (jsString ((detailOf body).getD .null)) }) ∧
    (∀ st d msg, (∀ body, d = some body → hasDetail body = false) →
      apiRequest (.httpError st d msg) =
        { ok := false, status := st, data := d.getD .null,
          error := some msg }) ∧
    (∀ msg, apiRequest (.networkFailure msg) =
      { ok := false, status := 0, data := .null,
        error := some (msg.getD "Unknown network error") }) := by
  refine ⟨fun o => ?_, fun st d => rfl, fun st body msg h => ?_,
    fun st d msg h => ?_, fun msg => rfl⟩
  · cases o with
    | success st d => simp [apiRequest]
    | httpError st d msg => simp [apiRequest]
    | networkFailure msg => simp [apiRequest]
  · simp [apiRequest, h]
  · cases d with
    | none => rfl
    | some body => simp [apiRequest, h body rfl]

/-- Witness for C8 on a 404 whose body carries a "detail" member. -/
theorem apiRequest_spec_witness :
    apiRequest (.httpError 404 (some (.obj [("detail", .str "missing")]))
        "Request failed") =
      { ok := false, status := 404, data := .obj [("detail", .str "missing")],
        error := some "missing" } :=
  (apiRequest_spec.2.2.1 404 (.obj [("detail", .str "missing")])
      "Request failed" (by decide)).trans rfl

/-! ## types.ts : status vocabulary and payload records -/

/-- types.ts `LlmMode`. -/
inductive LlmMode where
  | auto | text | vision
  deriving DecidableEq

/-- Platform choices offered by the run form (`PlatformOption`). -/
inductive PlatformOption where
  | android | ios | web
  deriving DecidableEq

/-- String value each platform option submits. -/
def platformString : PlatformOption → String
  | .android => "android"
  | .ios => "ios"
  | .web => "web"

/-- types.ts `TaskStatusResponse.status` union: note its fourth literal is
"failed", not "error". -/
inductive TaskStatus where
  | pending | running | completed | failed
  deriving DecidableEq

/-- The string literal of each `TaskStatusResponse.status` value. -/
def statusString : TaskStatus → String
  | .pending => "pending"
  | .running => "running"
  | .completed => "completed"
  | .failed => "failed"

/-- types.ts `TaskCollectionResponse` grouping keys (here the last group is
called "error"). -/
inductive TaskCollectionKey where
  | completed | pending | running | error
  deriving DecidableEq

/-- The string literal of each collection grouping key. -/
def collectionKeyString : TaskCollectionKey → String
  | .completed => "completed"
  | .pending => "pending"
  | .running => "running"
  | .error => "error"

/-- types.ts `AutomationTaskDefinition` (optional members are `Option`). -/
structure AutomationTaskDefinition where
  name : String
  details : String
  scope : Option String := none
  skip : Option Bool := none
  target : Option String := none
  apps : Option (List String) := none
  deriving DecidableEq

/-- types.ts `TargetConfiguration`. -/
structure TargetConfiguration where
  name : String
  platform : String
  server : Option String := none
  default : Option Bool := none
  deriving DecidableEq

/-- JavaScript number as the form state sees it: NaN, the two infinities,
or a finite value (modelled as a rational). -/
inductive JsNum where
  | nan | posInf | negInf
  | finite (q : ℚ)
  deriving DecidableEq

/-- `Math.floor`. -/
def jsFloor : JsNum → JsNum
  | .finite q => .finite ⌊q⌋
  | x => x

/-- `Math.max` (NaN wins, infinities ordered as usual). -/
def jsMax : JsNum → JsNum → JsNum
  | .nan, _ => .nan
  | _, .nan => .nan
  | .posInf, _ => .posInf
  | _, .posInf => .posInf
  | .negInf, b => b
  | a, .negInf => a
  | .finite p, .finite q => .finite (max p q)

/-- `Math.min`. -/
def jsMin : JsNum → JsNum → JsNum
  | .nan, _ => .nan
  | _, .nan => .nan
  | .negInf, _ => .negInf
  | _, .negInf => .negInf
  | .posInf, b => b
  | a, .posInf => a
  | .finite p, .finite q => .finite (min p q)

/-- `Number.isFinite`. -/
def jsIsFinite : JsNum → Bool
  | .finite _ => true
  | _ => false

/-- The comparison `x >= 1` (false on NaN). -/
def jsGeOne : JsNum → Bool
  | .finite q => decide (1 ≤ q)
  | .posInf => true
  | _ => false

/-- The dialog state update `Number(value) || 1`: NaN and 0 are falsy and
fall back to 1. -/
def jsOrOne (x : JsNum) : JsNum :=
  if x = .nan || x = .finite 0 then .finite 1 else x

/-- types.ts `RunTaskPayload`, the body of a POST /run request. -/
structure RunTaskPayload where
  prompt : String
  tasks : List AutomationTaskDefinition
  server : Option String := none
  platform : Option String := none
  targets : Option (List TargetConfiguration) := none
  reports_folder : String
  debug : Bool
  «repeat» : JsNum
  llm_mode : LlmMode
  deriving DecidableEq

/-- types.ts `StepInfo`: one per-step screenshot entry of a task report. -/
structure StepInfo where
  index : Nat
  filename : String
  image_url : String
  deriving DecidableEq

/-! ## CodeLibraryPanel.tsx : RunTaskForm state -/

/-- Per-task row of the run form (`TaskFormState`). -/
structure TaskFormState where
  id : String
  name : String
  details : String
  scope : String
  skip : Bool
  target : String
  apps : String
  deriving DecidableEq

/-- Per-target row of the run form (`TargetFormState`). -/
structure TargetFormState where
  id : String
  name : String
  platform : PlatformOption
  server : String
  default : Bool
  deriving DecidableEq

/-- CodeLibraryPanel.tsx `handleTargetDefaultToggle`: switching one
target's default flag on clears the flag on every other target; switching
it off leaves the others untouched. -/
def handleTargetDefaultToggle (id : String) (enabled : Bool)
    (current : List TargetFormState) : List TargetFormState :=
  current.map fun target =>
    if target.id = id then { target with default := enabled }
    else if enabled then { target with default := false }
    else target

/-! ## CodeLibraryPanel.tsx : VISION_PATTERNS

Each entry of `VISION_PATTERNS` is a case-insensitive regex.  We embed
their exact matching semantics over lowercased text: the `\b`-delimited
word alternatives become `wordAltMatch` (all alternative literals start
and end with word characters, so `\b` reduces to "the neighbour is not a
word character"), and the two `verify...` patterns become `verifyMatch`,
an existential search over the positions the regex path can take
(`\s+` runs are quantified existentially, which coincides with the
backtracking semantics because the tokens after them never start with
whitespace). -/

/-- JS regex `\w` class. -/
def isWordChar (c : Char) : Bool := c.isAlpha || c.isDigit || c = '_'

/-- Lowercasing used to model the `/i` flag. -/
def jsToLower (s : String) : String := ⟨s.data.map Char.toLower⟩

/-- Character list of a string literal. -/
def chars (s : String) : List Char := s.data

/-- `w` occurs in `s` at offset `i`. -/
def startsAt (s : List Char) (i : Nat) (w : List Char) : Bool :=
  w.isPrefixOf (s.drop i)

/-- A `\b` just before offset `i`, for a pattern whose first character is
a word character. -/
def wordBoundaryLeft (s : List Char) (i : Nat) : Bool :=
  if i = 0 then true
  else
    match s.get? (i - 1) with
    | some c => !isWordChar c
    | none => true

/-- A `\b` just after offset `j`, for a pattern whose last character is a
word character. -/
def wordBoundaryRight (s : List Char) (j : Nat) : Bool :=
  match s.get? j with
  | some c => !isWordChar c
  | none => true

/-- Matcher of a regex `\b(w₁|…|wₙ)\b` anywhere in the text. -/
def wordAltMatch (alts : List (List Char)) (s : List Char) : Bool :=
  (List.range (s.length + 1)).any fun i =>
    alts.any fun w =>
      wordBoundaryLeft s i && startsAt s i w &&
        wordBoundaryRight s (i + w.length)

/-- One of `finals` occurs at offset `j` followed by a `\b`. -/
def finalsAt (s : List Char) (j : Nat) (finals : List (List Char)) : Bool :=
  finals.any fun w => startsAt s j w && wordBoundaryRight s (j + w.length)

/-- Positions `j ≤ k < j2` all hold `\s` characters, with `j < j2`
(a non-empty whitespace run, the `\s+` token). -/
def spacesRun (s : List Char) (j j2 : Nat) : Bool :=
  decide (j < j2) && decide (j2 ≤ s.length) &&
    (List.range' j (j2 - j)).all fun k =>
      match s.get? k with
      | some c => jsWhitespace c
      | none => false

/-- Matcher of `\bverify(?:ing)?\s+(?:OPT\s+)?(?:f₁|…|fₙ)\b` (the two
`verify` entries of VISION_PATTERNS, with OPT = "the" or "that"). -/
def verifyMatch (optWord : List Char) (finals : List (List Char))
    (s : List Char) : Bool :=
  (List.range (s.length + 1)).any fun i =>
    wordBoundaryLeft s i &&
      ([chars "verify", chars "verifying"].any fun stem =>
        startsAt s i stem &&
          ((List.range (s.length + 1)).any fun j2 =>
            spacesRun s (i + stem.length) j2 &&
              (finalsAt s j2 finals ||
                (startsAt s j2 optWord &&
                  (List.range (s.length + 1)).any fun j4 =>
                    spacesRun s (j2 + optWord.length) j4 &&
                      finalsAt s j4 finals))))

/-- CodeLibraryPanel.tsx `VISION_PATTERNS`, in source order. -/
def VISION_PATTERNS : List (List Char → Bool) :=
  [ wordAltMatch [chars "image"],
    wordAltMatch [chars "visual"],
    wordAltMatch [chars "screenshot"],
    wordAltMatch [chars "picture"],
    wordAltMatch [chars "photo"],
    wordAltMatch [chars "icon"],
    wordAltMatch [chars "diagram"],
    wordAltMatch [chars "graph"],
    wordAltMatch [chars "chart"],
    wordAltMatch [chars "camera"],
    wordAltMatch [chars "ocr"],
    wordAltMatch [chars "scan"],
    verifyMatch (chars "the")
      [chars "output", chars "display", chars "ui", chars "screen"],
    verifyMatch (chars "that")
      [chars "text", chars "word", chars "words"],
    wordAltMatch [chars "color", chars "colors", chars "colour", chars "colours"],
    wordAltMatch [chars "overlap", chars "overlapping"],
    wordAltMatch [chars "see"],
    wordAltMatch [chars "word", chars "words"] ]

/-- `VISION_PATTERNS.some((pattern) => pattern.test(combined))`. -/
def visionPatternsTest (s : String) : Bool :=
  VISION_PATTERNS.any fun p => p (jsToLower s).data

/-- The `combined` text of one task row: its non-empty fragments among
name, details and scope, joined with single spaces. -/
def combinedText (task : TaskFormState) : String :=
  String.intercalate " "
    (([task.name, task.details, task.scope]).filter fun f => f ≠ "")

/-- CodeLibraryPanel.tsx `shouldUseVision`: some task row's combined text
matches a vision pattern. -/
def shouldUseVision (taskForms : List TaskFormState) : Bool :=
  taskForms.any fun task => visionPatternsTest (combinedText task)

/-! ## CodeLibraryPanel.tsx : RunTaskForm.handleSubmit -/

/-- JavaScript `"a,b".split(",")` at list level: split at every comma,
keeping empty segments (`"".split(",")` is `[""]`). -/
def splitCommaList : List Char → List (List Char)
  | [] => [[]]
  | c :: rest =>
    if c = ',' then [] :: splitCommaList rest
    else
      match splitCommaList rest with
      | [] => [[c]]
      | h :: t => (c :: h) :: t

/-- `task.apps.split(",")`. -/
def jsSplitComma (s : String) : List String :=
  (splitCommaList s.data).map String.mk

/-- Validation and assembly of one task row inside `handleSubmit`
(`none` models the early return after the warning notification). -/
def prepareTask (task : TaskFormState) : Option AutomationTaskDefinition :=
  let name := jsTrim task.name
  let details := jsTrim task.details
  if name = "" then none
  else if details = "" then none
  else
    let scope := jsTrim task.scope
    let targetAlias := jsTrim task.target
    let apps := ((jsSplitComma task.apps).map jsTrim).filter fun a => a ≠ ""
    some { name := name, details := details,
           scope := if scope = "" then none else some scope,
           skip := if task.skip then some true else none,
           target := if targetAlias = "" then none else some targetAlias,
           apps := if apps.isEmpty then none else some apps }

/-- The `for (const task of taskForms)` loop: the first invalid row aborts
the submission. -/
def prepareTasksList : List TaskFormState → Option (List AutomationTaskDefinition)
  | [] => some []
  | task :: rest =>
    match prepareTask task with
    | none => none
    | some payload =>
      match prepareTasksList rest with
      | none => none
      | some payloads => some (payload :: payloads)

/-- The `for (const target of targetForms)` loop with its `seen` name set:
rejects an empty trimmed name, a name already seen, and an empty trimmed
server. -/
def prepareTargetsGo : List TargetFormState → List String →
    Option (List TargetConfiguration)
  | [], _ => some []
  | target :: rest, seen =>
    let name := jsTrim target.name
    if name = "" then none
    else if seen.contains name then none
    else
      let serverUrl := jsTrim target.server
      if serverUrl = "" then none
      else
        match prepareTargetsGo rest (name :: seen) with
        | none => none
        | some ts =>
          some ({ name := name, platform := platformString target.platform,
                  server := some serverUrl,
                  default := if target.default then some true else none } :: ts)

/-- The component state `handleSubmit` reads. -/
structure SubmitState where
  token : Option String
  promptValue : String
  taskForms : List TaskFormState
  targetForms : List TargetFormState
  platform : PlatformOption
  server : String
  reportsFolder : String
  debug : Bool
  repeatCount : JsNum

/-- CodeLibraryPanel.tsx `RunTaskForm.handleSubmit` up to the POST /run
call: `some payload` means exactly one /run request is issued with that
payload; `none` means a warning was shown and no request goes out. -/
def handleSubmit (s : SubmitState) : Option RunTaskPayload :=
  if s.token.isNone then none
  else if jsTrim s.promptValue = "" then none
  else if s.taskForms.isEmpty then none
  else
    match prepareTasksList s.taskForms with
    | none => none
    | some preparedTasks =>
      if !(jsIsFinite s.repeatCount && jsGeOne s.repeatCount) then none
      else
        match s.targetForms with
        | [] =>
          let trimmedServer := jsTrim s.server
          if trimmedServer = "" then none
          else
            some { prompt := s.promptValue, tasks := preparedTasks,
                   server := some trimmedServer,
                   platform := some (platformString s.platform),
                   targets := none,
                   reports_folder := s.reportsFolder, debug := s.debug,
                   «repeat» := s.repeatCount, llm_mode := .auto }
        | t :: ts =>
          match prepareTargetsGo (t :: ts) [] with
          | none => none
          | some preparedTargets =>
            some { prompt := s.promptValue, tasks := preparedTasks,
                   server := none, platform := none,
                   targets := if preparedTargets.isEmpty then none
                              else some preparedTargets,
                   reports_folder := s.reportsFolder, debug := s.debug,
                   «repeat» := s.repeatCount, llm_mode := .auto }

/-- The Repeat Count field's onChange handler: `Number.isNaN` falls back
to 1, anything else is floored and clamped by
`Math.min(500, Math.max(1, Math.floor(next)))`. -/
def clampRepeat (next : JsNum) : JsNum :=
  if next = .nan then .finite 1
  else jsMin (.finite 500) (jsMax (.finite 1) (jsFloor next))

/-! ## TaskEditDialog.tsx : handleSubmit -/

/-- Outcome of `tasksJson ? JSON.parse(tasksJson) : []` followed by the
`Array.isArray` check; TypeScript passes array elements through untyped,
we type the well-formed case. -/
inductive ParsedTasks where
  | arrayOf (tasks : List AutomationTaskDefinition)
  | nonArray
  | parseFailure (message : String)
  deriving DecidableEq

/-- The dialog state `TaskEditDialog.handleSubmit` reads. -/
structure DialogState where
  prompt : String
  tasksParsed : ParsedTasks
  server : String
  platform : String
  reportsFolder : String
  debug : Bool
  «repeat» : JsNum
  llmMode : LlmMode
  hasTargets : Bool

/-- TaskEditDialog.tsx `handleSubmit`: `some payload` is the payload given
to `onSubmit`; `none` means `setError` fired and nothing was saved.  Note
the repeat guard only demands a finite number that is at least 1. -/
def dialogHandleSubmit (d : DialogState) : Option RunTaskPayload :=
  match d.tasksParsed with
  | .parseFailure _ => none
  | .nonArray => none
  | .arrayOf parsed =>
    if jsTrim d.prompt = "" then none
    else if !(jsIsFinite d.«repeat» && jsGeOne d.«repeat») then none
    else
      let trimmedServer := jsTrim d.server
      if !d.hasTargets && trimmedServer = "" then none
      else
        some { prompt := d.prompt, tasks := parsed,
               server := if d.hasTargets then none else some trimmedServer,
               platform := if d.hasTargets then none else some d.platform,
               targets := none,
               reports_folder := d.reportsFolder, debug := d.debug,
               «repeat» := d.«repeat», llm_mode := d.llmMode }

/-! ## Default-flag toggling (C6) -/

/-- Number of targets currently flagged as default. -/
def countDefaults (l : List TargetFormState) : Nat :=
  l.countP fun t => t.default

/-- A sequence of toggle operations (target id, switch position), applied
left to right through `handleTargetDefaultToggle`. -/
def applyToggles (ops : List (String × Bool))
    (l : List TargetFormState) : List TargetFormState :=
  ops.foldl (fun acc op => handleTargetDefaultToggle op.1 op.2 acc) l

theorem toggle_map_id (id : String) (e : Bool) (l : List TargetFormState) :
    (handleTargetDefaultToggle id e l).map TargetFormState.id =
      l.map TargetFormState.id := by
  unfold handleTargetDefaultToggle
  rw [List.map_map]
  apply List.map_congr_left
  intro t _
  by_cases h : t.id = id <;> by_cases he : e = true <;> simp [h, he]

theorem countP_le_one_of_nodup_ids (l : List TargetFormState) (v : String)
    (h : (l.map TargetFormState.id).Nodup) :
    (l.countP fun t => decide (t.id = v)) ≤ 1 := by
  induction l with
  | nil => simp
  | cons t rest ih =>
    rw [List.map_cons, List.nodup_cons] at h
    rw [List.countP_cons]
    by_cases hv : t.id = v
    · have hzero : (rest.countP fun u => decide (u.id = v)) = 0 := by
        rw [List.countP_eq_zero]
        intro u hu
        simp only [decide_eq_true_eq]
        intro huv
        exact h.1 (by
          rw [← hv] at huv
          exact (List.mem_map).mpr ⟨u, hu, huv⟩)
      simp [hv, hzero]
    · simp only [hv, decide_eq_true_eq, if_neg]
      simpa using ih h.2

theorem toggle_true_count (id : String) (l : List TargetFormState)
    (h : (l.map TargetFormState.id).Nodup) :
    countDefaults (handleTargetDefaultToggle id true l) ≤ 1 := by
  unfold countDefaults handleTargetDefaultToggle
  rw [List.countP_map]
  have heq : ∀ t ∈ l,
      ((fun t : TargetFormState => t.default) ∘ fun target =>
        if target.id = id then { target with default := true }
        else if true then { target with default := false } else target) t =
        decide (t.id = id) := by
    intro t _
    by_cases ht : t.id = id <;> simp [ht]
  calc l.countP _ = l.countP fun t => decide (t.id = id) :=
        List.countP_congr fun t ht => by rw [heq t ht]
    _ ≤ 1 := countP_le_one_of_nodup_ids l id h

theorem toggle_false_count (id : String) (l : List TargetFormState) :
    countDefaults (handleTargetDefaultToggle id false l) ≤ countDefaults l := by
  unfold countDefaults handleTargetDefaultToggle
  rw [List.countP_map]
  apply List.countP_mono_left
  intro t _
  by_cases ht : t.id = id <;> simp [ht]

theorem toggle_count_invariant (id : String) (e : Bool)
    (l : List TargetFormState) (h : (l.map TargetFormState.id).Nodup)
    (hc : countDefaults l ≤ 1) :
    countDefaults (handleTargetDefaultToggle id e l) ≤ 1 := by
  cases e with
  | true => exact toggle_true_count id l h
  | false => exact le_trans (toggle_false_count id l) hc

/-- C6: over any sequence of default toggles on a target list with
distinct ids, at most one target ends up flagged default; switching a
target on clears the flag everywhere else, and switching one off only
touches the matching target. -/
theorem default_toggle_spec (ops : List (String × Bool))
    (l : List TargetFormState) (hids : (l.map TargetFormState.id).Nodup)
    (hstart : countDefaults l ≤ 1) :
    countDefaults (applyToggles ops l) ≤ 1 ∧
    (∀ id, ∀ t ∈ handleTargetDefaultToggle id true l,
      t.id ≠ id → t.default = false) ∧
    (∀ id, handleTargetDefaultToggle id false l =
      l.map fun t => if t.id = id then { t with default := false } else t) := by
  refine ⟨?_, ?_, ?_⟩
  · induction ops generalizing l with
    | nil => exact hstart
    | cons op rest ih =>
      show countDefaults (applyToggles rest (handleTargetDefaultToggle op.1 op.2 l)) ≤ 1
      refine ih _ ?_ (toggle_count_invariant op.1 op.2 l hids hstart)
      rw [toggle_map_id]
      exact hids
  · intro id t ht hne
    unfold handleTargetDefaultToggle at ht
    obtain ⟨u, _, hu⟩ := List.mem_map.mp ht
    by_cases h : u.id = id
    · exfalso
      apply hne
      rw [← hu]
      simp [h]
    · rw [← hu]
      simp [h]
  · intro id
    unfold handleTargetDefaultToggle
    apply List.map_congr_left
    intro t _
    by_cases h : t.id = id <;> simp [h]

/-- Witness for C6: two targets, both toggled on in turn; one default
remains. -/
theorem default_toggle_spec_witness :
    countDefaults (applyToggles [("a", true), ("b", true)]
      [{ id := "a", name := "phone", platform := .android,
         server := "http://a", default := false },
       { id := "b", name := "browser", platform := .web,
         server := "http://b", default := false }]) ≤ 1 :=
  (default_toggle_spec [("a", true), ("b", true)]
    [{ id := "a", name := "phone", platform := .android,
       server := "http://a", default := false },
     { id := "b", name := "browser", platform := .web,
       server := "http://b", default := false }]
    (by decide) (by decide)).1

/-! ## Decision-loop mode switch (C2) -/

/-- Modelled from the spec: the decision loop's `auto` mode selection —
"auto scans the task's own text (name/details/scope) against a fixed set
of visual-cue patterns and escalates to vision mode only when matched,
otherwise uses text mode; text/vision are explicit overrides".  The
pattern scan itself is the frontend's `shouldUseVision`/`VISION_PATTERNS`
embedded above; the loop that consumes the decision runs behind the HTTP
API and is not under src/. -/
def decideMode (mode : LlmMode) (taskForms : List TaskFormState) : LlmMode :=
  match mode with
  | .auto => if shouldUseVision taskForms then .vision else .text
  | m => m

/-- A task row whose details mention a screenshot. -/
def screenshotTask : TaskFormState :=
  { id := "task-1", name := "check banner",
    details := "Open the app and take a screenshot of the banner",
    scope := "", skip := false, target := "", apps := "" }

/-- A task row with no visual cue in name, details or scope. -/
def plainTask : TaskFormState :=
  { id := "task-2", name := "login flow",
    details := "Enter the credentials and submit the form",
    scope := "functional", skip := false, target := "", apps := "" }

/-- C2: with llm_mode auto, vision is selected exactly when some task
row's concatenated name/details/scope text matches a VISION_PATTERNS
entry, and text mode exactly when no row's text matches; concretely, a
details text containing "screenshot" escalates to vision and a text
without visual cues stays in text mode. -/
theorem auto_vision_mode_spec (taskForms : List TaskFormState) :
    (decideMode .auto taskForms = .vision ↔
      ∃ task ∈ taskForms, visionPatternsTest (combinedText task) = true) ∧
    (decideMode .auto taskForms = .text ↔
      ∀ task ∈ taskForms, visionPatternsTest (combinedText task) = false) ∧
    decideMode .auto [screenshotTask] = .vision ∧
    decideMode .auto [plainTask] = .text := by
  refine ⟨?_, ?_, by decide, by decide⟩
  · unfold decideMode shouldUseVision
    cases h : (taskForms.any fun task => visionPatternsTest (combinedText task)) with
    | true =>
      simp only [if_pos rfl, h]
      simpa using List.any_eq_true.mp h
    | false =>
      simp only [h]
      constructor
      · intro hcontra
        exact absurd hcontra (by simp)
      · intro ⟨task, hmem, htest⟩
        exact absurd htest (List.any_eq_false.mp h task hmem)
  · unfold decideMode shouldUseVision
    cases h : (taskForms.any fun task => visionPatternsTest (combinedText task)) with
    | true =>
      simp only [h]
      constructor
      · intro hcontra
        exact absurd hcontra (by simp)
      · intro hall
        obtain ⟨task, hmem, htest⟩ := List.any_eq_true.mp h
        exact absurd htest (by simp [hall task hmem])
    | false =>
      simp only [h]
      simpa using List.any_eq_false.mp h

/-! ## Task status values and transitions (C3) -/

/-- Modelled from the spec: the registry's status lifecycle "a Task's
status transitions only pending→running→{completed,error}; it never
reverts".  The worker that performs the transition runs behind the HTTP
API and is not under src/; the status vocabulary itself is the types.ts
`TaskStatusResponse.status` union, whose terminal failure value is
spelled "failed". -/
def taskTransition : TaskStatus → TaskStatus → Bool
  | .pending, .running => true
  | .running, .completed => true
  | .running, .failed => true
  | _, _ => false

/-- Statuses the lifecycle never leaves. -/
def isTerminal : TaskStatus → Bool
  | .completed => true
  | .failed => true
  | _ => false

/-- C3 as stated is false on types.ts: "failed" is a declared
`TaskStatusResponse.status` value and lies outside the claim's value set
{pending, running, completed, error}. -/
theorem status_value_counterexample :
    statusString TaskStatus.failed ∉ ["pending", "running", "completed", "error"] := by
  decide

/-- C3 amended: the per-task status field takes only the values pending,
running, completed or failed; transitions go only
pending→running→{completed,failed}; a terminal status has no successor,
so once completed or failed it never changes again. -/
theorem status_monotonic_spec :
    (∀ s : TaskStatus,
      statusString s ∈ ["pending", "running", "completed", "failed"]) ∧
    (∀ s t : TaskStatus, taskTransition s t = true →
      (s = .pending ∧ t = .running) ∨
      (s = .running ∧ (t = .completed ∨ t = .failed))) ∧
    (∀ s t : TaskStatus, isTerminal s = true → taskTransition s t = false) := by
  refine ⟨?_, ?_, ?_⟩
  · intro s; cases s <;> decide
  · intro s t h; cases s <;> cases t <;> simp_all [taskTransition]
  · intro s t h; cases s <;> cases t <;> simp_all [isTerminal, taskTransition]

/-- Witness for C3 (amended) at concrete statuses. -/
theorem status_monotonic_spec_witness :
    statusString .running ∈ ["pending", "running", "completed", "failed"] ∧
    ((TaskStatus.pending = .pending ∧ TaskStatus.running = .running) ∨
      (TaskStatus.pending = .running ∧
        (TaskStatus.running = .completed ∨ TaskStatus.running = .failed))) ∧
    taskTransition .completed .running = false :=
  ⟨status_monotonic_spec.1 .running,
   status_monotonic_spec.2.1 .pending .running rfl,
   status_monotonic_spec.2.2 .completed .running rfl⟩

/-! ## Step indices and screenshot filenames (C4) -/

/-- Modelled from the spec: the report writer behind the HTTP API appends
one Step per loop iteration, with "the file naming convention stepN_*
preserving Step ordering (N = Step.index)"; only its per-step record
(types.ts `StepInfo`) and the dashboard rendering are under src/. -/
def appendStep (report : List StepInfo) (suffix : String) (url : String) :
    List StepInfo :=
  report ++ [{ index := report.length,
               filename := "step" ++ toString report.length ++ "_" ++ suffix,
               image_url := url }]

/-- A run's report: every recorded artifact appended in execution
order, starting from the empty report. -/
def buildReport (artifacts : List (String × String)) : List StepInfo :=
  artifacts.foldl (fun report a => appendStep report a.1 a.2) []

/-- The C4 invariant of a report. -/
def reportInvariant (r : List StepInfo) : Prop :=
  r.map StepInfo.index = List.range r.length ∧
  ∀ step ∈ r, ∃ suffix,
    step.filename = "step" ++ toString step.index ++ "_" ++ suffix

theorem appendStep_invariant (r : List StepInfo) (a u : String)
    (h : reportInvariant r) : reportInvariant (appendStep r a u) := by
  obtain ⟨hidx, hname⟩ := h
  constructor
  · unfold appendStep
    rw [List.map_append, List.length_append, hidx]
    simp [List.range_succ]
  · intro step hstep
    unfold appendStep at hstep
    rw [List.mem_append] at hstep
    cases hstep with
    | inl hmem => exact hname step hmem
    | inr hnew =>
      rw [List.mem_singleton] at hnew
      exact ⟨a, by rw [hnew]⟩

/-- C4: for every run the recorded Step indices are exactly 0..N-1 in
order (each Step's index is its position), and each Step's screenshot
artifact is named stepN_* with N the Step's index, so listing the files
reconstructs the execution order. -/
theorem step_indices_spec (artifacts : List (String × String)) :
    reportInvariant (buildReport artifacts) := by
  suffices h : ∀ r, reportInvariant r →
      reportInvariant (artifacts.foldl (fun rep a => appendStep rep a.1 a.2) r) by
    exact h [] ⟨rfl, by simp⟩
  induction artifacts with
  | nil => exact fun r hr => hr
  | cons a rest ih =>
    intro r hr
    exact ih _ (appendStep_invariant r a.1 a.2 hr)

/-- Witness for C4 on a two-step run. -/
theorem step_indices_spec_witness :
    (buildReport [("shot.png", "u0"), ("done.png", "u1")]).map StepInfo.index =
        List.range 2 ∧
      ∃ suffix,
        (StepInfo.mk 1 "step1_done.png" "u1").filename =
          "step" ++ toString (StepInfo.mk 1 "step1_done.png" "u1").index ++
            "_" ++ suffix :=
  ⟨(step_indices_spec [("shot.png", "u0"), ("done.png", "u1")]).1,
   (step_indices_spec [("shot.png", "u0"), ("done.png", "u1")]).2
     (StepInfo.mk 1 "step1_done.png" "u1") (by decide)⟩

/-! ## iOS selector validation (C5) -/

/-- Modelled from the spec: the Selector Validator's candidate shapes on
iOS — either an attribute-based locator (accessibility name or label,
optionally refined with type/enabled/visible) or a positional
`Type[index]` pattern; the validator is not under src/. -/
inductive IosSelector where
  | attrBased (name : Option String) (label : Option String)
      (useType useEnabled useVisible : Bool)
  | positional (elementType : String) (idx : Nat)

/-- Verdicts of the Selector Validator. -/
inductive SelectorVerdict where
  | accepted
  | rewriteRequired
  | unresolvable
  deriving DecidableEq

/-- Modelled from the spec: "iOS: accept using accessibility name or
label, optionally combined with type/enabled/visible attributes for
disambiguation; reject type[index] patterns — require rewriting to
attribute-based form first". -/
def validateIosSelector : IosSelector → SelectorVerdict
  | .positional _ _ => .rewriteRequired
  | .attrBased name label _ _ _ =>
    if name.isSome || label.isSome then .accepted else .unresolvable

/-- C5: every positional `Type[index]` selector on iOS is answered with a
rewrite request and is never accepted. -/
theorem ios_positional_rejected_spec (elementType : String) (idx : Nat) :
    validateIosSelector (.positional elementType idx) = .rewriteRequired ∧
    validateIosSelector (.positional elementType idx) ≠ .accepted :=
  ⟨rfl, by simp [validateIosSelector]⟩

/-! ## handleSubmit characterization (C1, C7, C10) -/

theorem prepareTask_isSome (t : TaskFormState) :
    (∃ d, prepareTask t = some d) ↔
      (jsTrim t.name ≠ "" ∧ jsTrim t.details ≠ "") := by
  unfold prepareTask
  by_cases h1 : jsTrim t.name = "" <;> by_cases h2 : jsTrim t.details = "" <;>
    simp [h1, h2]

theorem prepareTasksList_isSome (l : List TaskFormState)
    (h : ∀ t ∈ l, jsTrim t.name ≠ "" ∧ jsTrim t.details ≠ "") :
    ∃ ds, prepareTasksList l = some ds := by
  induction l with
  | nil => exact ⟨[], rfl⟩
  | cons t rest ih =>
    obtain ⟨d, hd⟩ := (prepareTask_isSome t).mpr (h t (by simp))
    obtain ⟨ds, hds⟩ := ih fun u hu => h u (by simp [hu])
    exact ⟨d :: ds, by simp [prepareTasksList, hd, hds]⟩

theorem prepareTargetsGo_sound (l : List TargetFormState) :
    ∀ (seen : List String) (ts : List TargetConfiguration),
    prepareTargetsGo l seen = some ts →
    ts.map TargetConfiguration.name = l.map (fun t => jsTrim t.name) ∧
    (l.map fun t => jsTrim t.name).Nodup ∧
    (∀ t ∈ l, jsTrim t.name ≠ "" ∧ jsTrim t.server ≠ "" ∧
      jsTrim t.name ∉ seen) := by
  induction l with
  | nil =>
    intro seen ts h
    simp only [prepareTargetsGo, Option.some.injEq] at h
    subst h
    simp
  | cons t rest ih =>
    intro seen ts h
    simp only [prepareTargetsGo] at h
    by_cases h1 : jsTrim t.name = ""
    · simp [h1] at h
    rw [if_neg h1] at h
    by_cases h2 : jsTrim t.name ∈ seen
    · rw [if_pos (by simpa using h2)] at h; cases h
    rw [if_neg (by simpa using h2)] at h
    by_cases h3 : jsTrim t.server = ""
    · rw [if_pos h3] at h; cases h
    rw [if_neg h3] at h
    cases hrec : prepareTargetsGo rest (jsTrim t.name :: seen) with
    | none => rw [hrec] at h; cases h
    | some ts2 =>
      rw [hrec] at h
      simp only [Option.some.injEq] at h
      obtain ⟨hnames, hnd, hall⟩ := ih (jsTrim t.name :: seen) ts2 hrec
      have hheadnot : jsTrim t.name ∉ rest.map fun u => jsTrim u.name := by
        intro hmem
        obtain ⟨u, hu, hueq⟩ := List.mem_map.mp hmem
        exact (hall u hu).2.2 (by rw [hueq]; exact List.mem_cons_self _ _)
      refine ⟨?_, ?_, ?_⟩
      · rw [← h]
        simp [hnames]
      · rw [List.map_cons, List.nodup_cons]
        exact ⟨hheadnot, hnd⟩
      · intro u hu
        rcases List.mem_cons.mp hu with hut | hur
        · subst hut
          exact ⟨h1, h3, h2⟩
        · obtain ⟨hn, hs, hseen⟩ := hall u hur
          exact ⟨hn, hs, fun hc => hseen (List.mem_cons_of_mem _ hc)⟩

theorem prepareTargetsGo_complete (l : List TargetFormState) :
    ∀ seen : List String,
    (l.map fun t => jsTrim t.name).Nodup →
    (∀ t ∈ l, jsTrim t.name ≠ "" ∧ jsTrim t.server ≠ "" ∧
      jsTrim t.name ∉ seen) →
    ∃ ts, prepareTargetsGo l seen = some ts := by
  induction l with
  | nil => exact fun seen _ _ => ⟨[], rfl⟩
  | cons t rest ih =>
    intro seen hnd hall
    obtain ⟨h1, h3, hseen⟩ := hall t (by simp)
    rw [List.map_cons, List.nodup_cons] at hnd
    have hrest : ∀ u ∈ rest, jsTrim u.name ≠ "" ∧ jsTrim u.server ≠ "" ∧
        jsTrim u.name ∉ (jsTrim t.name :: seen) := by
      intro u hu
      obtain ⟨hn, hs, hus⟩ := hall u (List.mem_cons_of_mem _ hu)
      refine ⟨hn, hs, ?_⟩
      intro hc
      rcases List.mem_cons.mp hc with hc1 | hc2
      · exact hnd.1 (by rw [← hc1]; exact List.mem_map_of_mem _ hu)
      · exact hus hc2
    obtain ⟨ts, hts⟩ := ih (jsTrim t.name :: seen) hnd.2 hrest
    refine ⟨{ name := jsTrim t.name, platform := platformString t.platform,
              server := some (jsTrim t.server),
              default := if t.default then some true else none } :: ts, ?_⟩
    simp only [prepareTargetsGo]
    rw [if_neg h1, if_neg (by simpa using hseen), if_neg h3, hts]

/-- Validation conditions of the target rows, as the submit code enforces
them. -/
def targetsValid (l : List TargetFormState) : Bool :=
  decide ((l.map fun t => jsTrim t.name).Nodup) &&
    l.all fun t => decide (jsTrim t.name ≠ "") && decide (jsTrim t.server ≠ "")

/-- All conditions `handleSubmit` checks before issuing the request. -/
def validSubmission (s : SubmitState) : Bool :=
  s.token.isSome &&
  decide (jsTrim s.promptValue ≠ "") &&
  decide (s.taskForms ≠ []) &&
  (s.taskForms.all fun t =>
    decide (jsTrim t.name ≠ "") && decide (jsTrim t.details ≠ "")) &&
  (jsIsFinite s.repeatCount && jsGeOne s.repeatCount) &&
  (match s.targetForms with
   | [] => decide (jsTrim s.server ≠ "")
   | _ :: _ => targetsValid s.targetForms)

/-- Inversion: everything that must have held for a /run request to go
out, and the payload fields it determines. -/
theorem handleSubmit_some_inv (s : SubmitState) (p : RunTaskPayload)
    (h : handleSubmit s = some p) :
    s.token.isSome = true ∧ jsTrim s.promptValue ≠ "" ∧ s.taskForms ≠ [] ∧
    (∃ ds, prepareTasksList s.taskForms = some ds ∧ p.tasks = ds) ∧
    (jsIsFinite s.repeatCount && jsGeOne s.repeatCount) = true ∧
    p.«repeat» = s.repeatCount ∧
    ((s.targetForms = [] ∧ jsTrim s.server ≠ "" ∧
        p.server = some (jsTrim s.server) ∧ p.targets = none) ∨
      (s.targetForms ≠ [] ∧
        ∃ tgts, prepareTargetsGo s.targetForms [] = some tgts ∧
          p.targets = (if tgts.isEmpty then none else some tgts) ∧
          p.server = none)) := by
  unfold handleSubmit at h
  by_cases ht : s.token.isNone
  · rw [if_pos ht] at h; cases h
  rw [if_neg ht] at h
  by_cases hp : jsTrim s.promptValue = ""
  · rw [if_pos hp] at h; cases h
  rw [if_neg hp] at h
  by_cases he : s.taskForms.isEmpty
  · rw [if_pos he] at h; cases h
  rw [if_neg he] at h
  have htok : s.token.isSome = true := by
    cases htt : s.token with
    | none => rw [htt] at ht; exact absurd rfl ht
    | some v => rfl
  have hne : s.taskForms ≠ [] := by simpa using he
  cases hds : prepareTasksList s.taskForms with
  | none => rw [hds] at h; cases h
  | some ds =>
    rw [hds] at h
    simp only at h
    cases hrep : (jsIsFinite s.repeatCount && jsGeOne s.repeatCount) with
    | false =>
      rw [if_pos (by simp [hrep])] at h
      cases h
    | true =>
      rw [if_neg (by simp [hrep])] at h
      cases htf : s.targetForms with
      | nil =>
        rw [htf] at h
        simp only at h
        by_cases hsv : jsTrim s.server = ""
        · rw [if_pos hsv] at h; cases h
        rw [if_neg hsv] at h
        simp only [Option.some.injEq] at h
        subst h
        exact ⟨htok, hp, hne, ⟨ds, rfl, rfl⟩, rfl, rfl,
          Or.inl ⟨rfl, hsv, rfl, rfl⟩⟩
      | cons t rest =>
        rw [htf] at h
        simp only at h
        cases htg : prepareTargetsGo (t :: rest) [] with
        | none => rw [htg] at h; cases h
        | some tgts =>
          rw [htg] at h
          simp only [Option.some.injEq] at h
          subst h
          exact ⟨htok, hp, hne, ⟨ds, rfl, rfl⟩, rfl, rfl,
            Or.inr ⟨by simp, tgts, rfl, rfl, rfl⟩⟩

/-- Every valid submission issues the request. -/
theorem handleSubmit_isSome_of_valid (s : SubmitState)
    (h : validSubmission s = true) : ∃ p, handleSubmit s = some p := by
  unfold validSubmission at h
  simp only [Bool.and_eq_true, decide_eq_true_eq, List.all_eq_true] at h
  obtain ⟨⟨⟨⟨⟨htok, hp⟩, hne⟩, htasks⟩, hrep⟩, htg⟩ := h
  obtain ⟨ds, hds⟩ := prepareTasksList_isSome s.taskForms fun t ht =>
    htasks t ht
  have hnone : s.token.isNone = false := by
    cases htt : s.token with
    | none => rw [htt] at htok; exact absurd htok (by simp)
    | some v => rfl
  unfold handleSubmit
  rw [if_neg (by simp [hnone]), if_neg hp, if_neg (by simpa using hne), hds]
  simp only []
  rw [if_neg (by simp [hrep])]
  cases htf : s.targetForms with
  | nil =>
    rw [htf] at htg
    simp only [] at htg
    simp only []
    rw [if_neg (by simpa using htg)]
    exact ⟨_, rfl⟩
  | cons t rest =>
    rw [htf] at htg
    simp only [targetsValid, Bool.and_eq_true, decide_eq_true_eq,
      List.all_eq_true] at htg
    obtain ⟨hnd, hall⟩ := htg
    obtain ⟨tgts, htgts⟩ := prepareTargetsGo_complete (t :: rest) [] hnd
      (fun u hu => ⟨(hall u hu).1, (hall u hu).2, by simp⟩)
    simp only []
    rw [htgts]
    exact ⟨_, rfl⟩

/-- C1: an invalid run definition — whitespace-only prompt, empty task
list, or neither a global server nor any configured target carrying a
server — is rejected with a warning and no /run request is issued
(`handleSubmit` returns `none`, so no Task is created); every definition
passing the submit validations issues exactly one /run request, modelled
by the unique `some payload` result. -/
theorem enqueue_validation_spec (s : SubmitState) :
    (jsTrim s.promptValue = "" → handleSubmit s = none) ∧
    (s.taskForms = [] → handleSubmit s = none) ∧
    (((s.targetForms = [] ∧ jsTrim s.server = "") ∨
        (s.targetForms ≠ [] ∧ ∀ t ∈ s.targetForms, jsTrim t.server = "")) →
      handleSubmit s = none) ∧
    (validSubmission s = true → ∃ p, handleSubmit s = some p) := by
  refine ⟨?_, ?_, ?_, handleSubmit_isSome_of_valid s⟩
  · intro hp
    cases hres : handleSubmit s with
    | none => rfl
    | some p =>
      obtain ⟨_, hp2, _⟩ := handleSubmit_some_inv s p hres
      exact absurd hp hp2
  · intro h0
    cases hres : handleSubmit s with
    | none => rfl
    | some p =>
      obtain ⟨_, _, hne, _⟩ := handleSubmit_some_inv s p hres
      exact absurd h0 hne
  · intro hcase
    cases hres : handleSubmit s with
    | none => rfl
    | some p =>
      obtain ⟨_, _, _, _, _, _, htg⟩ := handleSubmit_some_inv s p hres
      rcases hcase with ⟨hemp, hsv⟩ | ⟨hne, hall⟩
      · rcases htg with ⟨_, hsv2, _⟩ | ⟨hne2, _⟩
        · exact absurd hsv hsv2
        · exact absurd hemp hne2
      · rcases htg with ⟨hemp2, _⟩ | ⟨_, tgts, htgts, _⟩
        · exact absurd hemp2 hne
        · obtain ⟨t0, rest, htf⟩ : ∃ t0 rest, s.targetForms = t0 :: rest := by
            cases hl : s.targetForms with
            | nil => exact absurd hl hne
            | cons a b => exact ⟨a, b, rfl⟩
          have hsound := prepareTargetsGo_sound s.targetForms [] tgts htgts
          have hsrv := (hsound.2.2 t0 (by rw [htf]; simp)).2.1
          exact absurd (hall t0 (by rw [htf]; simp)) hsrv

/-- A state whose prompt is whitespace-only. -/
def invalidSubmitState : SubmitState :=
  { token := some "tok", promptValue := "   ", taskForms := [plainTask],
    targetForms := [], platform := .ios,
    server := "http://10.160.24.110:8080/wd/hub",
    reportsFolder := "./reports", debug := false, repeatCount := .finite 1 }

/-- A state passing every submit validation. -/
def validSubmitState : SubmitState :=
  { token := some "tok", promptValue := "You are a mobile testing agent",
    taskForms := [plainTask], targetForms := [], platform := .ios,
    server := "http://10.160.24.110:8080/wd/hub",
    reportsFolder := "./reports", debug := false, repeatCount := .finite 1 }

/-- Witness for C1: a blank prompt is rejected, a valid definition is
posted. -/
theorem enqueue_validation_spec_witness :
    handleSubmit invalidSubmitState = none ∧
    ∃ p, handleSubmit validSubmitState = some p :=
  ⟨(enqueue_validation_spec invalidSubmitState).1 (by decide),
   (enqueue_validation_spec validSubmitState).2.2.2 (by decide)⟩

/-- C7: target names are unique within a submitted definition — duplicate
trimmed names, an empty trimmed name, or a target without a server each
abort the submission with no request enqueued; every payload that does go
out carries pairwise-distinct target names, so a run never holds two
sessions with the same target name. -/
theorem target_name_unique_spec (s : SubmitState) :
    (¬ (s.targetForms.map fun t => jsTrim t.name).Nodup →
      handleSubmit s = none) ∧
    ((∃ t ∈ s.targetForms, jsTrim t.name = "") → handleSubmit s = none) ∧
    ((∃ t ∈ s.targetForms, jsTrim t.server = "") → handleSubmit s = none) ∧
    (∀ p tgts, handleSubmit s = some p → p.targets = some tgts →
      (tgts.map TargetConfiguration.name).Nodup) := by
  refine ⟨?_, ?_, ?_, ?_⟩
  · intro hdup
    cases hres : handleSubmit s with
    | none => rfl
    | some p =>
      obtain ⟨_, _, _, _, _, _, htg⟩ := handleSubmit_some_inv s p hres
      rcases htg with ⟨hemp, _⟩ | ⟨_, tgts, htgts, _⟩
      · exact absurd (by rw [hemp]; exact List.nodup_nil) hdup
      · exact absurd (prepareTargetsGo_sound s.targetForms [] tgts htgts).2.1
          hdup
  · intro ⟨t, hmem, hname⟩
    cases hres : handleSubmit s with
    | none => rfl
    | some p =>
      obtain ⟨_, _, _, _, _, _, htg⟩ := handleSubmit_some_inv s p hres
      rcases htg with ⟨hemp, _⟩ | ⟨_, tgts, htgts, _⟩
      · rw [hemp] at hmem; cases hmem
      · exact absurd hname
          ((prepareTargetsGo_sound s.targetForms [] tgts htgts).2.2 t hmem).1
  · intro ⟨t, hmem, hsrv⟩
    cases hres : handleSubmit s with
    | none => rfl
    | some p =>
      obtain ⟨_, _, _, _, _, _, htg⟩ := handleSubmit_some_inv s p hres
      rcases htg with ⟨hemp, _⟩ | ⟨_, tgts, htgts, _⟩
      · rw [hemp] at hmem; cases hmem
      · exact absurd hsrv
          ((prepareTargetsGo_sound s.targetForms [] tgts htgts).2.2 t
            hmem).2.1
  · intro p tgts hres htargets
    obtain ⟨_, _, _, _, _, _, htg⟩ := handleSubmit_some_inv s p hres
    rcases htg with ⟨_, _, _, hnone⟩ | ⟨_, tgts2, htgts2, heq, _⟩
    · rw [hnone] at htargets; cases htargets
    · rw [heq] at htargets
      by_cases hemp : tgts2.isEmpty
      · rw [if_pos hemp] at htargets; cases htargets
      · rw [if_neg hemp] at htargets
        have hinj : tgts2 = tgts := by injection htargets
        have hsound := prepareTargetsGo_sound s.targetForms [] tgts2 htgts2
        rw [← hinj, hsound.1]
        exact hsound.2.1

/-- A submission holding two targets whose names trim to "phone". -/
def duplicateTargetState : SubmitState :=
  { token := some "tok", promptValue := "prompt", taskForms := [plainTask],
    targetForms :=
      [{ id := "t1", name := "phone", platform := .android,
         server := "http://a", default := false },
       { id := "t2", name := " phone ", platform := .web,
         server := "http://b", default := false }],
    platform := .ios, server := "", reportsFolder := "./reports",
    debug := false, repeatCount := .finite 1 }

/-- Witness for C7: duplicate trimmed target names abort the
submission. -/
theorem target_name_unique_spec_witness :
    handleSubmit duplicateTargetState = none :=
  (target_name_unique_spec duplicateTargetState).1 (by decide)

/-! ## Repeat count (C10) -/

/-- What C10 claims of every submitted repeat value. -/
def repeatIntInRange (x : JsNum) : Prop :=
  ∃ n : ℤ, 1 ≤ n ∧ n ≤ 500 ∧ x = .finite (n : ℚ)

/-- An edit-dialog state with repeat 600, which its guard accepts. -/
def dialogState600 : DialogState :=
  { prompt := "Explore the app", tasksParsed := .arrayOf [],
    server := "http://10.160.24.110:8080/wd/hub", platform := "android",
    reportsFolder := "./reports", debug := false, «repeat» := .finite 600,
    llmMode := .auto, hasTargets := false }

/-- C10 fails as stated: the edit dialog saves a payload whose repeat is
600, outside the claimed range 1..500. -/
theorem repeat_range_counterexample :
    dialogHandleSubmit dialogState600 =
      some { prompt := "Explore the app", tasks := [],
             server := some "http://10.160.24.110:8080/wd/hub",
             platform := some "android", targets := none,
             reports_folder := "./reports", debug := false,
             «repeat» := .finite 600, llm_mode := .auto } ∧
    ¬ repeatIntInRange (.finite 600) := by
  refine ⟨by decide, ?_⟩
  rintro ⟨n, h1, h2, h3⟩
  have hn : (600 : ℚ) = (n : ℚ) := by
    have hinj := h3
    rw [JsNum.finite.injEq] at hinj
    exact hinj
  have hn600 : n = 600 := by exact_mod_cast hn.symm
  omega

/-- C10 amended: the run form's Repeat Count field clamps every entered
value to an integer in [1,500] (a non-numeric entry maps to 1) and the
submitted run payload carries exactly the form's repeat count; the edit
dialog only refuses a repeat that is not a finite number at least 1, so a
saved edit may carry a repeat outside that range. -/
theorem repeat_clamp_spec :
    (∀ x : JsNum, repeatIntInRange (clampRepeat x)) ∧
    (∀ s p, handleSubmit s = some p → p.«repeat» = s.repeatCount) ∧
    (∀ d p, dialogHandleSubmit d = some p →
      (jsIsFinite p.«repeat» && jsGeOne p.«repeat») = true) ∧
    (∀ d, (jsIsFinite d.«repeat» && jsGeOne d.«repeat») = false →
      dialogHandleSubmit d = none) := by
  refine ⟨?_, ?_, ?_, ?_⟩
  · intro x
    cases x with
    | nan => exact ⟨1, by norm_num, by norm_num, by decide⟩
    | posInf => exact ⟨500, by norm_num, by norm_num, by decide⟩
    | negInf => exact ⟨1, by norm_num, by norm_num, by decide⟩
    | finite q =>
      refine ⟨min 500 (max 1 ⌊q⌋), by omega, by omega, ?_⟩
      show clampRepeat (.finite q) = _
      simp only [clampRepeat, jsFloor, jsMax, jsMin, if_neg]
      rw [if_neg (by simp)]
      rw [JsNum.finite.injEq]
      push_cast
      rfl
  · intro s p h
    exact (handleSubmit_some_inv s p h).2.2.2.2.2.1
  · intro d p h
    unfold dialogHandleSubmit at h
    cases hq : d.tasksParsed with
    | parseFailure m => rw [hq] at h; cases h
    | nonArray => rw [hq] at h; cases h
    | arrayOf parsed =>
      rw [hq] at h
      simp only [] at h
      split at h
      next => cases h
      next h1 =>
      split at h
      next => cases h
      next h2 =>
      split at h
      next => cases h
      next h3 =>
      simp only [Option.some.injEq] at h
      subst h
      simpa using h2
  · intro d hg
    unfold dialogHandleSubmit
    cases d.tasksParsed with
    | parseFailure m => rfl
    | nonArray => rfl
    | arrayOf parsed =>
      simp only []
      by_cases h1 : jsTrim d.prompt = ""
      · rw [if_pos h1]
      · rw [if_neg h1, if_pos (by simp [hg])]

/-- The /run payload `validSubmitState` produces. -/
def validSubmitPayload : RunTaskPayload :=
  { prompt := "You are a mobile testing agent",
    tasks := [{ name := "login flow",
                details := "Enter the credentials and submit the form",
                scope := some "functional", skip := none, target := none,
                apps := none }],
    server := some "http://10.160.24.110:8080/wd/hub",
    platform := some "ios", targets := none, reports_folder := "./reports",
    debug := false, «repeat» := .finite 1, llm_mode := .auto }

/-- Witness for C10 (amended): a clamped fractional entry lands in range,
the run form's payload carries the clamped count, and a NaN repeat is
refused by the dialog. -/
theorem repeat_clamp_spec_witness :
    repeatIntInRange (clampRepeat (.finite (7 / 2 : ℚ))) ∧
    validSubmitPayload.«repeat» = validSubmitState.repeatCount ∧
    dialogHandleSubmit { dialogState600 with «repeat» := .nan } = none :=
  ⟨repeat_clamp_spec.1 (.finite (7 / 2 : ℚ)),
   repeat_clamp_spec.2.1 validSubmitState validSubmitPayload (by decide),
   repeat_clamp_spec.2.2.2 _ (by decide)⟩

end AiTestingTool
